import Mathlib

/-!
Shallow embedding of the fractabubbler core (src/main.c).

The program rasterizes a glyph into a greyscale bitmap and then repeatedly
finds the largest circle that fits inside the nonzero pixels, emits it, and
erases its interior.  We embed the algorithmic core:

  * `Bitmap`               : the C `Bitmap` struct; `data` is modelled as a total
                             function from (x, y) pixel coordinates to the byte
                             stored there (the program always has stride = width,
                             so the row-major index `(y * stride + x)` becomes
                             the pair `(x, y)`).
  * `ringCheckAux`         : the `while (y <= x)` loop of `is_circle_in_image`
                             (Jesko's midpoint circle walk); C ints become `Int`,
                             the loop gets explicit fuel (the loop runs at most
                             `r + 1` times since `y` grows each iteration and
                             `x` never grows, with `y <= x <= r`).
  * `is_circle_in_image`   : the boundary-ring test at one radius.
  * `getCircleAux`/`get_circle` : the recursive radius growth of `get_circle`;
                             the C function returns a `double`, but every value
                             it produces is the integer `r - 1`, so `Int` is exact.
  * `find_biggest_circle`  : the double for-loop scan (x outer ascending, y inner
                             ascending), expressed as a fold over the scan-order
                             point list with the C update `if (r > greatest)`.
  * `erase`                : the disk-erasure double loop in `fractabubble`.
  * `packAux`/`fractabubble` : the while loop of `fractabubble`, producing the
                             ordered list of emitted circles `(r, x, y)`;
                             the loop gets fuel `W*H + 1`, which we prove ample.
-/

/-- The C `Bitmap` struct: a width, a height, and the pixel bytes, with
`data x y` the byte at column `x`, row `y` (the program keeps stride = width). -/
structure Bitmap where
  width : Int
  height : Int
  data : Int → Int → Nat

/-- The `while (y <= x)` loop body of `is_circle_in_image` in src/main.c:
checks the eight symmetric boundary pixels, then advances `y`, `t1`, and
possibly decrements `x` exactly as the C code does.  `fuel` bounds the
iteration count; `r.toNat + 1` iterations always suffice. -/
def ringCheckAux (img : Bitmap) (cx cy : Int) : Nat → Int → Int → Int → Bool
  | 0, _, _, _ => true
  | fuel + 1, x, y, t1 =>
    if y ≤ x then
      if img.data (cx + x) (cy + y) = 0 ∨ img.data (cx + x) (cy - y) = 0 ∨
         img.data (cx - x) (cy + y) = 0 ∨ img.data (cx - x) (cy - y) = 0 ∨
         img.data (cx + y) (cy + x) = 0 ∨ img.data (cx - y) (cy + x) = 0 ∨
         img.data (cx + y) (cy - x) = 0 ∨ img.data (cx - y) (cy - x) = 0 then
        false
      else
        if 0 ≤ t1 + (y + 1) - x then
          ringCheckAux img cx cy fuel (x - 1) (y + 1) (t1 + (y + 1) - x)
        else
          ringCheckAux img cx cy fuel x (y + 1) (t1 + (y + 1))
    else true

/-- `is_circle_in_image` from src/main.c: walk the midpoint-circle boundary
ring of radius `r` around `(cx, cy)` and report whether every ring pixel is
nonzero.  Initial state `x = r`, `y = 0`, `t1 = r / 16`. -/
def is_circle_in_image (img : Bitmap) (cx cy r : Int) : Bool :=
  ringCheckAux img cx cy (r.toNat + 1) r 0 (r / 16)

/-- The recursion of `get_circle` in src/main.c with explicit fuel: at radius
`r`, fail with `r - 1` if the bounding square leaves the canvas or the
boundary ring has an empty pixel, otherwise try `r + 1`. -/
def getCircleAux (img : Bitmap) (px py : Int) : Nat → Int → Int
  | 0, r => r - 1
  | fuel + 1, r =>
    if px - r < 0 ∨ img.width ≤ px + r ∨ py - r < 0 ∨ img.height ≤ py + r then
      r - 1
    else if is_circle_in_image img px py r then
      getCircleAux img px py fuel (r + 1)
    else
      r - 1

/-- `get_circle` from src/main.c.  The C recursion stops no later than
`r = width` when started in bounds, so `(width + height).toNat + 2` units of
fuel are ample; all theorems below work at this fuel directly. -/
def get_circle (img : Bitmap) (px py r : Int) : Int :=
  getCircleAux img px py ((img.width + img.height).toNat + 2) r

/-- One step of the `find_biggest_circle` scan in src/main.c: the incumbent
`(greatest_radius, out_x, out_y)` is replaced only when the candidate value is
strictly greater (`if (r > greatest_radius)`). -/
def bestStep (v : Int × Int → Int) (best : Int × Int × Int) (p : Int × Int) :
    Int × Int × Int :=
  if best.1 < v p then (v p, p.1, p.2) else best

/-- The candidate centers of `find_biggest_circle`, in the C scan order:
`x` ascending in the outer loop, `y` ascending in the inner loop. -/
def scanPoints (img : Bitmap) : List (Int × Int) :=
  (List.range img.width.toNat).flatMap fun x : Nat =>
    (List.range img.height.toNat).map fun y : Nat => ((x : Int), (y : Int))

/-- The value `get_circle(img, x, y, 0)` examined at each candidate center. -/
def circleValue (img : Bitmap) (p : Int × Int) : Int :=
  get_circle img p.1 p.2 0

/-- `find_biggest_circle` from src/main.c, as `(greatest_radius, out_x, out_y)`.
The C locals `out_x`, `out_y` are only ever read when the radius is positive;
the embedding seeds them with 0. -/
def find_biggest_circle (img : Bitmap) : Int × Int × Int :=
  (scanPoints img).foldl (bestStep (circleValue img)) (0, 0, 0)

/-- The disk-erasure double loop of `fractabubble` in src/main.c: offsets
`i, j` range over `[-r, r)` and the cell `(p_x + i, p_y + j)` is zeroed when
`j*j + i*i < r*r`.  The loop only writes, so it is the pointwise update below. -/
def erase (img : Bitmap) (px py r : Int) : Bitmap :=
  { img with
    data := fun a b =>
      if -r ≤ a - px ∧ a - px < r ∧ -r ≤ b - py ∧ b - py < r ∧
         (b - py) * (b - py) + (a - px) * (a - px) < r * r then 0
      else img.data a b }

/-- The `while` loop of `fractabubble` in src/main.c with explicit fuel: find
the biggest circle, stop if its radius is below `fineness`, otherwise emit
`(r, x, y)`, erase its open disk, and continue. -/
def packAux (fineness : Int) : Nat → Bitmap → List (Int × Int × Int)
  | 0, _ => []
  | fuel + 1, img =>
    let c := find_biggest_circle img
    if fineness ≤ c.1 then
      c :: packAux fineness fuel (erase img c.2.1 c.2.2 c.1)
    else []

/-- The circle sequence emitted by `fractabubble` in src/main.c for a given
bitmap and fineness (the SVG writing is pure output and is dropped).  The fuel
`W*H + 1` is ample: each iteration zeroes at least the winning center. -/
def fractabubble (img : Bitmap) (fineness : Int) : List (Int × Int × Int) :=
  packAux fineness (img.width.toNat * img.height.toNat + 1) img

/-- The number of nonzero pixels of the canvas. -/
def filledCount (img : Bitmap) : Nat :=
  (((Finset.range img.width.toNat) ×ˢ (Finset.range img.height.toNat)).filter
    (fun p => img.data (p.1 : Int) (p.2 : Int) ≠ 0)).card

/-- Modelled from the spec: the running-bound cap (`maxRadius`).  src/main.c
defines `MAX_CIRCLE_RADIUS_PERCENT` but never uses it, and no running bound
appears in the code; the spec describes a cap such that "no returned radius
may exceed it, even if geometrically more space is available".  The capped
oracle value is therefore the oracle value clamped to the bound. -/
def radiusAtCapped (img : Bitmap) (bound : Int) (p : Int × Int) : Int :=
  min bound (circleValue img p)

/-- Modelled from the spec: the candidate scan of the packer with the
running-bound cap applied to every oracle value. -/
def findBiggestCapped (img : Bitmap) (bound : Int) : Int × Int × Int :=
  (scanPoints img).foldl (bestStep (radiusAtCapped img bound)) (0, 0, 0)

/-- Modelled from the spec: the packer loop with a running bound, "seeded from
a configured maximum and updated to the radius just found after each
iteration". -/
def packCappedAux (fineness : Int) : Nat → Int → Bitmap → List (Int × Int × Int)
  | 0, _, _ => []
  | fuel + 1, bound, img =>
    let c := findBiggestCapped img bound
    if fineness ≤ c.1 then
      c :: packCappedAux fineness fuel c.1 (erase img c.2.1 c.2.2 c.1)
    else []

/-- Modelled from the spec: packing with a `maxRadius` cap. -/
def packCapped (img : Bitmap) (fineness maxRadius : Int) :
    List (Int × Int × Int) :=
  packCappedAux fineness (img.width.toNat * img.height.toNat + 1) maxRadius img

/-- A 5×5 canvas, fully filled except the single pixel (3, 3). -/
def gapGrid : Bitmap :=
  ⟨5, 5, fun a b => if a = 3 ∧ b = 3 then 0 else 1⟩

/-- An N×N canvas with every pixel filled. -/
def fullGrid (n : Nat) : Bitmap :=
  ⟨(n : Int), (n : Int), fun _ _ => 1⟩

/-- An all-empty 2×2 canvas. -/
def zeroGrid : Bitmap :=
  ⟨2, 2, fun _ _ => 0⟩

/-- A 60×60 canvas holding the filled closed disk of radius 20 centered at
(30, 30). -/
def diskGrid : Bitmap :=
  ⟨60, 60, fun a b =>
    if (a - 30) * (a - 30) + (b - 30) * (b - 30) ≤ 400 then 1 else 0⟩

/-- Lexicographic order on scan points: smaller x first, then smaller y. -/
def pointLex (p q : Int × Int) : Prop :=
  p.1 < q.1 ∨ (p.1 = q.1 ∧ p.2 < q.2)

lemma getCircleAux_zero (img : Bitmap) (px py r : Int) :
    getCircleAux img px py 0 r = r - 1 := rfl

lemma getCircleAux_succ (img : Bitmap) (px py : Int) (fuel : Nat) (r : Int) :
    getCircleAux img px py (fuel + 1) r =
      if px - r < 0 ∨ img.width ≤ px + r ∨ py - r < 0 ∨ img.height ≤ py + r then
        r - 1
      else if is_circle_in_image img px py r then
        getCircleAux img px py fuel (r + 1)
      else
        r - 1 := rfl

lemma packAux_zero (fineness : Int) (img : Bitmap) :
    packAux fineness 0 img = [] := rfl

lemma packAux_succ (fineness : Int) (fuel : Nat) (img : Bitmap) :
    packAux fineness (fuel + 1) img =
      if fineness ≤ (find_biggest_circle img).1 then
        find_biggest_circle img ::
          packAux fineness fuel
            (erase img (find_biggest_circle img).2.1 (find_biggest_circle img).2.2
              (find_biggest_circle img).1)
      else [] := rfl

lemma packCappedAux_zero (fineness bound : Int) (img : Bitmap) :
    packCappedAux fineness 0 bound img = [] := rfl

lemma packCappedAux_succ (fineness : Int) (fuel : Nat) (bound : Int) (img : Bitmap) :
    packCappedAux fineness (fuel + 1) bound img =
      if fineness ≤ (findBiggestCapped img bound).1 then
        findBiggestCapped img bound ::
          packCappedAux fineness fuel (findBiggestCapped img bound).1
            (erase img (findBiggestCapped img bound).2.1 (findBiggestCapped img bound).2.2
              (findBiggestCapped img bound).1)
      else [] := rfl

lemma bestStep_fst_le (v : Int × Int → Int) :
    ∀ (L : List (Int × Int)) (b : Int × Int × Int), b.1 ≤ (L.foldl (bestStep v) b).1 := by
  intro L
  induction L with
  | nil => intro b; simp
  | cons q T ih =>
    intro b
    have h1 : b.1 ≤ (bestStep v b q).1 := by
      by_cases hq : b.1 < v q
      · simpa [bestStep, hq] using hq.le
      · simp [bestStep, hq]
    simp only [List.foldl_cons]
    exact le_trans h1 (ih (bestStep v b q))

lemma le_foldl_bestStep_of_mem (v : Int × Int → Int) :
    ∀ (L : List (Int × Int)) (b : Int × Int × Int) (p : Int × Int),
      p ∈ L → v p ≤ (L.foldl (bestStep v) b).1 := by
  intro L
  induction L with
  | nil => intro b p hp; simp at hp
  | cons q T ih =>
    intro b p hp
    rcases List.mem_cons.mp hp with rfl | h
    · have h1 : v p ≤ (bestStep v b p).1 := by
        by_cases hq : b.1 < v p
        · simp [bestStep, hq]
        · simpa [bestStep, hq] using le_of_not_lt hq
      simp only [List.foldl_cons]
      exact le_trans h1 (bestStep_fst_le v T _)
    · simp only [List.foldl_cons]
      exact ih _ p h

lemma foldl_bestStep_le (v : Int × Int → Int) :
    ∀ (L : List (Int × Int)) (b : Int × Int × Int) (M : Int),
      (∀ p ∈ L, v p ≤ M) → b.1 ≤ M → (L.foldl (bestStep v) b).1 ≤ M := by
  intro L
  induction L with
  | nil => intro b M _ hb; simpa using hb
  | cons q T ih =>
    intro b M hall hb
    simp only [List.foldl_cons]
    apply ih _ M (fun p hp => hall p (List.mem_cons_of_mem q hp))
    by_cases hq : b.1 < v q
    · simpa [bestStep, hq] using hall q (List.mem_cons_self q T)
    · simpa [bestStep, hq] using hb

lemma foldl_bestStep_mono (v₁ v₂ : Int × Int → Int) :
    ∀ (L : List (Int × Int)) (b₁ b₂ : Int × Int × Int),
      (∀ p ∈ L, v₁ p ≤ v₂ p) → b₁.1 ≤ b₂.1 →
      (L.foldl (bestStep v₁) b₁).1 ≤ (L.foldl (bestStep v₂) b₂).1 := by
  intro L
  induction L with
  | nil => intro b₁ b₂ _ hb; simpa using hb
  | cons q T ih =>
    intro b₁ b₂ hall hb
    simp only [List.foldl_cons]
    apply ih _ _ (fun p hp => hall p (List.mem_cons_of_mem q hp))
    have hq12 := hall q (List.mem_cons_self q T)
    by_cases h1 : b₁.1 < v₁ q
    · by_cases h2 : b₂.1 < v₂ q
      · simpa [bestStep, h1, h2] using hq12
      · simpa [bestStep, h1, h2] using le_trans hq12 (le_of_not_lt h2)
    · by_cases h2 : b₂.1 < v₂ q
      · simpa [bestStep, h1, h2] using le_trans hb h2.le
      · simpa [bestStep, h1, h2] using hb

lemma foldl_bestStep_cases (v : Int × Int → Int) :
    ∀ (L : List (Int × Int)) (b : Int × Int × Int),
      (L.foldl (bestStep v) b = b ∧ ∀ p ∈ L, v p ≤ b.1) ∨
      ∃ L₁ p L₂, L = L₁ ++ p :: L₂ ∧
        L.foldl (bestStep v) b = (v p, p.1, p.2) ∧ b.1 < v p ∧
        (∀ q ∈ L₁, v q < v p) ∧ ∀ q ∈ L₂, v q ≤ v p := by
  intro L
  induction L with
  | nil => intro b; left; exact ⟨rfl, by simp⟩
  | cons q T ih =>
    intro b
    by_cases hq : b.1 < v q
    · have hfold : ((q :: T).foldl (bestStep v) b) = T.foldl (bestStep v) (v q, q.1, q.2) := by
        simp only [List.foldl_cons, bestStep, if_pos hq]
      rcases ih (v q, q.1, q.2) with ⟨heq, hall⟩ | ⟨T₁, p, T₂, hT, hres, hlt, h₁, h₂⟩
      · right
        refine ⟨[], q, T, by simp, ?_, hq, by simp, ?_⟩
        · rw [hfold, heq]
        · intro t ht; exact hall t ht
      · right
        refine ⟨q :: T₁, p, T₂, by rw [hT]; rfl, ?_, lt_trans hq hlt, ?_, h₂⟩
        · rw [hfold, hres]
        · intro t ht
          rcases List.mem_cons.mp ht with rfl | h
          · exact hlt
          · exact h₁ _ h
    · have hfold : ((q :: T).foldl (bestStep v) b) = T.foldl (bestStep v) b := by
        simp only [List.foldl_cons, bestStep, if_neg hq]
      rcases ih b with ⟨heq, hall⟩ | ⟨T₁, p, T₂, hT, hres, hlt, h₁, h₂⟩
      · left
        refine ⟨by rw [hfold, heq], ?_⟩
        intro t ht
        rcases List.mem_cons.mp ht with rfl | h
        · exact le_of_not_lt hq
        · exact hall t h
      · right
        refine ⟨q :: T₁, p, T₂, by rw [hT]; rfl, by rw [hfold, hres], hlt, ?_, h₂⟩
        intro t ht
        rcases List.mem_cons.mp ht with rfl | h
        · exact lt_of_le_of_lt (le_of_not_lt hq) hlt
        · exact h₁ _ h

lemma ringCheckAux_mono {img₁ img₂ : Bitmap} (cx cy : Int)
    (h : ∀ a b, img₁.data a b ≠ 0 → img₂.data a b ≠ 0) :
    ∀ (fuel : Nat) (x y t1 : Int), ringCheckAux img₁ cx cy fuel x y t1 = true →
      ringCheckAux img₂ cx cy fuel x y t1 = true := by
  intro fuel
  induction fuel with
  | zero => intro x y t1 _; rfl
  | succ n ih =>
    intro x y t1 htrue
    simp only [ringCheckAux] at htrue ⊢
    by_cases hyx : y ≤ x
    · rw [if_pos hyx] at htrue ⊢
      by_cases hz : img₁.data (cx + x) (cy + y) = 0 ∨ img₁.data (cx + x) (cy - y) = 0 ∨
          img₁.data (cx - x) (cy + y) = 0 ∨ img₁.data (cx - x) (cy - y) = 0 ∨
          img₁.data (cx + y) (cy + x) = 0 ∨ img₁.data (cx - y) (cy + x) = 0 ∨
          img₁.data (cx + y) (cy - x) = 0 ∨ img₁.data (cx - y) (cy - x) = 0
      · rw [if_pos hz] at htrue
        exact absurd htrue (by simp)
      · rw [if_neg hz] at htrue
        push_neg at hz
        obtain ⟨h1, h2, h3, h4, h5, h6, h7, h8⟩ := hz
        have hz2 : ¬(img₂.data (cx + x) (cy + y) = 0 ∨ img₂.data (cx + x) (cy - y) = 0 ∨
            img₂.data (cx - x) (cy + y) = 0 ∨ img₂.data (cx - x) (cy - y) = 0 ∨
            img₂.data (cx + y) (cy + x) = 0 ∨ img₂.data (cx - y) (cy + x) = 0 ∨
            img₂.data (cx + y) (cy - x) = 0 ∨ img₂.data (cx - y) (cy - x) = 0) := by
          push_neg
          exact ⟨h _ _ h1, h _ _ h2, h _ _ h3, h _ _ h4, h _ _ h5, h _ _ h6, h _ _ h7, h _ _ h8⟩
        rw [if_neg hz2]
        by_cases ht : 0 ≤ t1 + (y + 1) - x
        · rw [if_pos ht] at htrue ⊢
          exact ih _ _ _ htrue
        · rw [if_neg ht] at htrue ⊢
          exact ih _ _ _ htrue
    · rw [if_neg hyx]

lemma is_circle_in_image_mono {img₁ img₂ : Bitmap} (cx cy r : Int)
    (h : ∀ a b, img₁.data a b ≠ 0 → img₂.data a b ≠ 0)
    (h1 : is_circle_in_image img₁ cx cy r = true) :
    is_circle_in_image img₂ cx cy r = true :=
  ringCheckAux_mono cx cy h _ _ _ _ h1

lemma getCircleAux_ge (img : Bitmap) (px py : Int) :
    ∀ (fuel : Nat) (r : Int), r - 1 ≤ getCircleAux img px py fuel r := by
  intro fuel
  induction fuel with
  | zero => intro r; rw [getCircleAux_zero]
  | succ n ih =>
    intro r
    rw [getCircleAux_succ]
    by_cases hbox : px - r < 0 ∨ img.width ≤ px + r ∨ py - r < 0 ∨ img.height ≤ py + r
    · rw [if_pos hbox]
    · rw [if_neg hbox]
      by_cases hring : is_circle_in_image img px py r = true
      · rw [if_pos hring]
        have := ih (r + 1)
        omega
      · rw [if_neg hring]

lemma getCircleAux_mono {img₁ img₂ : Bitmap} (px py : Int)
    (hW : img₁.width = img₂.width) (hH : img₁.height = img₂.height)
    (h : ∀ a b, img₁.data a b ≠ 0 → img₂.data a b ≠ 0) :
    ∀ (fuel : Nat) (r : Int),
      getCircleAux img₁ px py fuel r ≤ getCircleAux img₂ px py fuel r := by
  intro fuel
  induction fuel with
  | zero => intro r; rw [getCircleAux_zero, getCircleAux_zero]
  | succ n ih =>
    intro r
    rw [getCircleAux_succ, getCircleAux_succ]
    by_cases hbox : px - r < 0 ∨ img₁.width ≤ px + r ∨ py - r < 0 ∨ img₁.height ≤ py + r
    · have hbox2 : px - r < 0 ∨ img₂.width ≤ px + r ∨ py - r < 0 ∨ img₂.height ≤ py + r := by
        rw [← hW, ← hH]; exact hbox
      rw [if_pos hbox, if_pos hbox2]
    · have hbox2 : ¬(px - r < 0 ∨ img₂.width ≤ px + r ∨ py - r < 0 ∨ img₂.height ≤ py + r) := by
        rw [← hW, ← hH]; exact hbox
      rw [if_neg hbox, if_neg hbox2]
      by_cases h1 : is_circle_in_image img₁ px py r = true
      · rw [if_pos h1, if_pos (is_circle_in_image_mono px py r h h1)]
        exact ih _
      · rw [if_neg h1]
        by_cases h2 : is_circle_in_image img₂ px py r = true
        · rw [if_pos h2]
          have := getCircleAux_ge img₂ px py n (r + 1)
          omega
        · rw [if_neg h2]

lemma getCircleAux_checks {img : Bitmap} {px py : Int} :
    ∀ (fuel : Nat) (r v : Int), getCircleAux img px py fuel r = v → r ≤ v →
      ∀ s : Int, r ≤ s → s ≤ v →
        (0 ≤ px - s ∧ px + s < img.width ∧ 0 ≤ py - s ∧ py + s < img.height) ∧
        is_circle_in_image img px py s = true := by
  intro fuel
  induction fuel with
  | zero =>
    intro r v hv hrv s hs hsv
    rw [getCircleAux_zero] at hv
    omega
  | succ n ih =>
    intro r v hv hrv s hs hsv
    rw [getCircleAux_succ] at hv
    by_cases hbox : px - r < 0 ∨ img.width ≤ px + r ∨ py - r < 0 ∨ img.height ≤ py + r
    · rw [if_pos hbox] at hv
      omega
    · rw [if_neg hbox] at hv
      by_cases hring : is_circle_in_image img px py r = true
      · rw [if_pos hring] at hv
        rcases eq_or_lt_of_le hs with rfl | hlt
        · push_neg at hbox
          obtain ⟨b1, b2, b3, b4⟩ := hbox
          exact ⟨⟨b1, b2, b3, b4⟩, hring⟩
        · exact ih (r + 1) v hv (by omega) s (by omega) hsv
      · rw [if_neg hring] at hv
        omega

lemma is_circle_zero_center {img : Bitmap} {cx cy : Int}
    (h : is_circle_in_image img cx cy 0 = true) : img.data cx cy ≠ 0 := by
  intro h0
  simp [is_circle_in_image, ringCheckAux, h0] at h

lemma get_circle_empty {img : Bitmap} {x y : Int} (hx0 : 0 ≤ x) (hxW : x < img.width)
    (hy0 : 0 ≤ y) (hyH : y < img.height) (h0 : img.data x y = 0) :
    get_circle img x y 0 = -1 := by
  have hfuel : (img.width + img.height).toNat + 2 = ((img.width + img.height).toNat + 1) + 1 :=
    rfl
  rw [get_circle, hfuel, getCircleAux_succ]
  rw [if_neg (show ¬(x - 0 < 0 ∨ img.width ≤ x + 0 ∨ y - 0 < 0 ∨ img.height ≤ y + 0) by omega)]
  have hring : ¬(is_circle_in_image img x y 0 = true) := fun hc => is_circle_zero_center hc h0
  rw [if_neg hring]
  norm_num

lemma erase_width (img : Bitmap) (px py r : Int) : (erase img px py r).width = img.width := rfl

lemma erase_height (img : Bitmap) (px py r : Int) : (erase img px py r).height = img.height :=
  rfl

lemma erase_subgrid (img : Bitmap) (px py r : Int) :
    ∀ a b : Int, (erase img px py r).data a b ≠ 0 → img.data a b ≠ 0 := by
  intro a b
  simp only [erase]
  by_cases hc : -r ≤ a - px ∧ a - px < r ∧ -r ≤ b - py ∧ b - py < r ∧
      (b - py) * (b - py) + (a - px) * (a - px) < r * r
  · rw [if_pos hc]
    intro hfalse
    exact absurd rfl hfalse
  · rw [if_neg hc]
    exact fun hne => hne

lemma erase_center {img : Bitmap} {px py r : Int} (hr : 1 ≤ r) :
    (erase img px py r).data px py = 0 := by
  have hc : -r ≤ px - px ∧ px - px < r ∧ -r ≤ py - py ∧ py - py < r ∧
      (py - py) * (py - py) + (px - px) * (px - px) < r * r := by
    have h1 : px - px = 0 := by omega
    have h2 : py - py = 0 := by omega
    rw [h1, h2]
    refine ⟨by omega, by omega, by omega, by omega, ?_⟩
    simpa using mul_pos (show (0 : Int) < r by omega) (show (0 : Int) < r by omega)
  simp only [erase]
  rw [if_pos hc]

lemma mem_scanPoints {img : Bitmap} {p : Int × Int} :
    p ∈ scanPoints img ↔ 0 ≤ p.1 ∧ p.1 < img.width ∧ 0 ≤ p.2 ∧ p.2 < img.height := by
  obtain ⟨a, b⟩ := p
  simp only [scanPoints, List.mem_flatMap, List.mem_map, List.mem_range]
  constructor
  · rintro ⟨x, hx, y, hy, heq⟩
    rw [Prod.mk.injEq] at heq
    obtain ⟨rfl, rfl⟩ := heq
    refine ⟨by omega, by omega, by omega, by omega⟩
  · rintro ⟨h1, h2, h3, h4⟩
    exact ⟨a.toNat, by omega, b.toNat, by omega, by rw [Prod.mk.injEq]; omega⟩

lemma pairwise_lex_flatMap (h : Nat) :
    ∀ xs : List Nat, xs.Pairwise (· < ·) →
      (xs.flatMap fun x : Nat =>
        (List.range h).map fun y : Nat => ((x : Int), (y : Int))).Pairwise pointLex := by
  intro xs
  induction xs with
  | nil => intro _; simp
  | cons x T ih =>
    intro hp
    rw [List.flatMap_cons, List.pairwise_append]
    obtain ⟨hhead, htail⟩ := List.pairwise_cons.mp hp
    refine ⟨?_, ih htail, ?_⟩
    · refine (List.pairwise_lt_range h).map _ ?_
      intro y1 y2 hy
      refine Or.inr ⟨rfl, ?_⟩
      show (y1 : Int) < (y2 : Int)
      exact_mod_cast hy
    · rintro p hp' q hq'
      obtain ⟨y1, hy1, rfl⟩ := List.mem_map.mp hp'
      obtain ⟨x2, hx2, hq2⟩ := List.mem_flatMap.mp hq'
      obtain ⟨y2, hy2, rfl⟩ := List.mem_map.mp hq2
      left
      show (x : Int) < (x2 : Int)
      exact_mod_cast hhead x2 hx2

lemma scanPoints_pairwise (img : Bitmap) : (scanPoints img).Pairwise pointLex :=
  pairwise_lex_flatMap img.height.toNat (List.range img.width.toNat)
    (List.pairwise_lt_range img.width.toNat)

lemma find_fst_nonneg (img : Bitmap) : 0 ≤ (find_biggest_circle img).1 :=
  bestStep_fst_le (circleValue img) (scanPoints img) (0, 0, 0)

lemma circleValue_le_of_subgrid {img₁ img₂ : Bitmap}
    (hW : img₁.width = img₂.width) (hH : img₁.height = img₂.height)
    (h : ∀ a b, img₁.data a b ≠ 0 → img₂.data a b ≠ 0) (p : Int × Int) :
    circleValue img₁ p ≤ circleValue img₂ p := by
  rw [circleValue, circleValue, get_circle, get_circle, hW, hH]
  exact getCircleAux_mono p.1 p.2 hW hH h _ 0

lemma find_le_of_subgrid {img₁ img₂ : Bitmap}
    (hW : img₁.width = img₂.width) (hH : img₁.height = img₂.height)
    (h : ∀ a b, img₁.data a b ≠ 0 → img₂.data a b ≠ 0) :
    (find_biggest_circle img₁).1 ≤ (find_biggest_circle img₂).1 := by
  have hs : scanPoints img₁ = scanPoints img₂ := by
    rw [scanPoints, scanPoints, hW, hH]
  rw [find_biggest_circle, find_biggest_circle, hs]
  exact foldl_bestStep_mono _ _ _ _ _
    (fun p _ => circleValue_le_of_subgrid hW hH h p) le_rfl

lemma find_pos_spec {img : Bitmap} {r x y : Int}
    (hfind : find_biggest_circle img = (r, x, y)) (hr : 0 < r) :
    (0 ≤ x ∧ x < img.width ∧ 0 ≤ y ∧ y < img.height) ∧
    get_circle img x y 0 = r ∧
    (∀ a b : Int, 0 ≤ a → a < img.width → 0 ≤ b → b < img.height →
      get_circle img a b 0 ≤ r) ∧
    (∀ a b : Int, 0 ≤ a → a < img.width → 0 ≤ b → b < img.height →
      get_circle img a b 0 = r → x < a ∨ (x = a ∧ y ≤ b)) := by
  rw [find_biggest_circle] at hfind
  rcases foldl_bestStep_cases (circleValue img) (scanPoints img) (0, 0, 0) with
    ⟨heq, _⟩ | ⟨L₁, p, L₂, hsplit, hres, _, h₁, h₂⟩
  · rw [heq] at hfind
    rw [Prod.mk.injEq, Prod.mk.injEq] at hfind
    omega
  · rw [hres, Prod.mk.injEq, Prod.mk.injEq] at hfind
    obtain ⟨hv, hx, hy⟩ := hfind
    have hp_mem : p ∈ scanPoints img := by
      rw [hsplit]
      exact List.mem_append_right _ (List.mem_cons_self _ _)
    obtain ⟨hb1, hb2, hb3, hb4⟩ := mem_scanPoints.mp hp_mem
    have hub : ∀ a b : Int, 0 ≤ a → a < img.width → 0 ≤ b → b < img.height →
        get_circle img a b 0 ≤ r := by
      intro a b ha1 ha2 ha3 ha4
      have hmem : ((a, b) : Int × Int) ∈ scanPoints img := mem_scanPoints.mpr ⟨ha1, ha2, ha3, ha4⟩
      have := le_foldl_bestStep_of_mem (circleValue img) (scanPoints img) (0, 0, 0) _ hmem
      rw [hres] at this
      have hle2 : circleValue img (a, b) ≤ circleValue img p := this
      rw [hv] at hle2
      exact hle2
    refine ⟨⟨by omega, by omega, by omega, by omega⟩, ?_, hub, ?_⟩
    · rw [← hx, ← hy, ← hv]
      rfl
    · intro a b ha1 ha2 ha3 ha4 hval
      have hmem : ((a, b) : Int × Int) ∈ scanPoints img := mem_scanPoints.mpr ⟨ha1, ha2, ha3, ha4⟩
      rw [hsplit] at hmem
      rcases List.mem_append.mp hmem with hmem1 | hmem2
      · exfalso
        have := h₁ _ hmem1
        rw [hv] at this
        have hvab : circleValue img (a, b) = r := hval
        omega
      · rcases List.mem_cons.mp hmem2 with heqp | hmem3
        · right
          constructor
          · rw [← hx, ← heqp]
          · rw [← hy, ← heqp]
        · have hpair := List.pairwise_append.mp (hsplit ▸ scanPoints_pairwise img)
          have hlex := (List.pairwise_cons.mp hpair.2.1).1 _ hmem3
          rcases hlex with hlt | ⟨heq1, hlt2⟩
          · left; rw [← hx]; exact hlt
          · right
            refine ⟨by rw [← hx]; exact heq1, by rw [← hy]; exact le_of_lt hlt2⟩

lemma find_box {img : Bitmap} {r x y : Int}
    (hfind : find_biggest_circle img = (r, x, y)) (hr : 0 < r) :
    (0 ≤ x - r ∧ x + r < img.width ∧ 0 ≤ y - r ∧ y + r < img.height) ∧
    ∀ s : Int, 0 ≤ s → s ≤ r → is_circle_in_image img x y s = true := by
  obtain ⟨_, hval, _, _⟩ := find_pos_spec hfind hr
  rw [get_circle] at hval
  have hchk := getCircleAux_checks _ 0 r hval (le_of_lt hr)
  refine ⟨?_, fun s hs0 hsr => (hchk s hs0 hsr).2⟩
  have := (hchk r (le_of_lt hr) le_rfl).1
  omega

lemma find_pos_center_filled {img : Bitmap} {r x y : Int}
    (hfind : find_biggest_circle img = (r, x, y)) (hr : 0 < r) :
    0 ≤ x ∧ x < img.width ∧ 0 ≤ y ∧ y < img.height ∧ img.data x y ≠ 0 := by
  obtain ⟨⟨h1, h2, h3, h4⟩, hval, _, _⟩ := find_pos_spec hfind hr
  rw [get_circle] at hval
  have hchk := getCircleAux_checks _ 0 r hval (le_of_lt hr)
  have hring0 := (hchk 0 le_rfl (le_of_lt hr)).2
  exact ⟨h1, h2, h3, h4, is_circle_zero_center hring0⟩

lemma packAux_head {fineness : Int} {fuel : Nat} {img : Bitmap} {c : Int × Int × Int}
    (h : (packAux fineness fuel img).head? = some c) :
    c = find_biggest_circle img ∧ fineness ≤ c.1 := by
  cases fuel with
  | zero => rw [packAux_zero] at h; cases h
  | succ n =>
    rw [packAux_succ] at h
    by_cases hf : fineness ≤ (find_biggest_circle img).1
    · rw [if_pos hf] at h
      rw [List.head?_cons] at h
      obtain rfl := (Option.some.injEq _ _).mp h
      exact ⟨rfl, hf⟩
    · rw [if_neg hf] at h
      cases h

lemma packAux_chain (fineness : Int) :
    ∀ (fuel : Nat) (img : Bitmap),
      List.Chain' (fun c d => d.1 ≤ c.1) (packAux fineness fuel img) := by
  intro fuel
  induction fuel with
  | zero => intro img; rw [packAux_zero]; exact List.chain'_nil
  | succ n ih =>
    intro img
    rw [packAux_succ]
    by_cases hf : fineness ≤ (find_biggest_circle img).1
    · rw [if_pos hf]
      rw [List.chain'_cons']
      refine ⟨?_, ih _⟩
      intro d hd
      obtain ⟨hd1, _⟩ := packAux_head (Option.mem_def.mp hd)
      rw [hd1]
      exact find_le_of_subgrid (erase_width _ _ _ _) (erase_height _ _ _ _)
        (erase_subgrid _ _ _ _) 
    · rw [if_neg hf]
      exact List.chain'_nil

/-- C2: for every grid and fineness, the sequence of winning radii produced by
the packing loop is non-increasing: the Nth emitted circle's radius is at most
the (N-1)th's.  This holds because erasure only removes filled pixels and the
radius oracle and the scan maximum are monotone in the filled-pixel set. -/
theorem c2_radii_nonincreasing (img : Bitmap) (fineness : Int) :
    List.Chain' (fun c d => d.1 ≤ c.1) (fractabubble img fineness) :=
  packAux_chain fineness _ img

lemma filledCount_le (img : Bitmap) :
    filledCount img ≤ img.width.toNat * img.height.toNat := by
  rw [filledCount]
  calc _ ≤ ((Finset.range img.width.toNat) ×ˢ (Finset.range img.height.toNat)).card :=
        Finset.card_filter_le _ _
    _ = img.width.toNat * img.height.toNat := by
        rw [Finset.card_product, Finset.card_range, Finset.card_range]

lemma filledCount_pos {img : Bitmap} {x y : Int} (hx0 : 0 ≤ x) (hxW : x < img.width)
    (hy0 : 0 ≤ y) (hyH : y < img.height) (hnz : img.data x y ≠ 0) :
    0 < filledCount img := by
  rw [filledCount]
  apply Finset.card_pos.mpr
  refine ⟨(x.toNat, y.toNat), ?_⟩
  rw [Finset.mem_filter, Finset.mem_product, Finset.mem_range, Finset.mem_range]
  have hxx : ((x.toNat : Int)) = x := by omega
  have hyy : ((y.toNat : Int)) = y := by omega
  refine ⟨⟨by omega, by omega⟩, ?_⟩
  simpa [hxx, hyy] using hnz

lemma filledCount_erase_lt {img : Bitmap} {x y r : Int} (hr : 1 ≤ r)
    (hx0 : 0 ≤ x) (hxW : x < img.width) (hy0 : 0 ≤ y) (hyH : y < img.height)
    (hnz : img.data x y ≠ 0) :
    filledCount (erase img x y r) < filledCount img := by
  rw [filledCount, filledCount, erase_width, erase_height]
  apply Finset.card_lt_card
  have hsub : (((Finset.range img.width.toNat) ×ˢ (Finset.range img.height.toNat)).filter
        (fun p => (erase img x y r).data (p.1 : Int) (p.2 : Int) ≠ 0)) ⊆
      (((Finset.range img.width.toNat) ×ˢ (Finset.range img.height.toNat)).filter
        (fun p => img.data (p.1 : Int) (p.2 : Int) ≠ 0)) := by
    intro p hp
    rw [Finset.mem_filter] at hp ⊢
    exact ⟨hp.1, erase_subgrid img x y r _ _ hp.2⟩
  rw [Finset.ssubset_iff_of_subset hsub]
  have hxx : ((x.toNat : Int)) = x := by omega
  have hyy : ((y.toNat : Int)) = y := by omega
  refine ⟨(x.toNat, y.toNat), ?_, ?_⟩
  · rw [Finset.mem_filter, Finset.mem_product, Finset.mem_range, Finset.mem_range]
    refine ⟨⟨by omega, by omega⟩, ?_⟩
    simpa [hxx, hyy] using hnz
  · intro hmem
    obtain ⟨-, hbad⟩ := Finset.mem_filter.mp hmem
    rw [hxx, hyy] at hbad
    exact hbad (erase_center hr)

lemma find_eta (img : Bitmap) :
    find_biggest_circle img = ((find_biggest_circle img).1, (find_biggest_circle img).2.1,
      (find_biggest_circle img).2.2) := rfl

lemma packAux_length (fineness : Int) (hf : 1 ≤ fineness) :
    ∀ (fuel : Nat) (img : Bitmap), (packAux fineness fuel img).length ≤ filledCount img := by
  intro fuel
  induction fuel with
  | zero => intro img; rw [packAux_zero]; simp
  | succ n ih =>
    intro img
    rw [packAux_succ]
    by_cases hle : fineness ≤ (find_biggest_circle img).1
    · rw [if_pos hle]
      have hr : 0 < (find_biggest_circle img).1 := by omega
      obtain ⟨hx0, hxW, hy0, hyH, hnz⟩ := find_pos_center_filled (find_eta img) hr
      have hlt := filledCount_erase_lt (r := (find_biggest_circle img).1) (by omega)
        hx0 hxW hy0 hyH hnz
      have hlen := ih (erase img (find_biggest_circle img).2.1 (find_biggest_circle img).2.2
        (find_biggest_circle img).1)
      rw [List.length_cons]
      omega
    · rw [if_neg hle]
      simp

lemma packAux_stable (fineness : Int) (hf : 1 ≤ fineness) :
    ∀ (n : Nat) (img : Bitmap), filledCount img ≤ n →
      packAux fineness (n + 1) img = packAux fineness n img := by
  intro n
  induction n with
  | zero =>
    intro img hc
    by_cases hle : fineness ≤ (find_biggest_circle img).1
    · exfalso
      have hr : 0 < (find_biggest_circle img).1 := by omega
      obtain ⟨hx0, hxW, hy0, hyH, hnz⟩ := find_pos_center_filled (find_eta img) hr
      have hpos : 0 < filledCount img := filledCount_pos hx0 hxW hy0 hyH hnz
      omega
    · rw [packAux_succ, if_neg hle, packAux_zero]
  | succ m ih =>
    intro img hc
    by_cases hle : fineness ≤ (find_biggest_circle img).1
    · have hr : 0 < (find_biggest_circle img).1 := by omega
      obtain ⟨hx0, hxW, hy0, hyH, hnz⟩ := find_pos_center_filled (find_eta img) hr
      have hlt := filledCount_erase_lt (r := (find_biggest_circle img).1) (by omega)
        hx0 hxW hy0 hyH hnz
      have hstep : ∀ k : Nat, packAux fineness (k + 1) img =
          find_biggest_circle img ::
            packAux fineness k (erase img (find_biggest_circle img).2.1
              (find_biggest_circle img).2.2 (find_biggest_circle img).1) := by
        intro k
        rw [packAux_succ, if_pos hle]
      rw [hstep (m + 1), hstep m]
      rw [ih _ (by omega)]
    · have hstop : ∀ k : Nat, packAux fineness (k + 1) img = [] := by
        intro k
        rw [packAux_succ, if_neg hle]
      rw [hstop (m + 1), hstop m]

lemma packAux_eq_of_ge (fineness : Int) (hf : 1 ≤ fineness) (img : Bitmap) :
    ∀ m : Nat, filledCount img ≤ m → packAux fineness m img = packAux fineness (filledCount img) img := by
  intro m hm
  induction m with
  | zero =>
    have : filledCount img = 0 := by omega
    rw [this]
  | succ k ih =>
    rcases Nat.lt_or_ge k (filledCount img) with hlt | hge
    · have : filledCount img = k + 1 := by omega
      rw [this]
    · rw [packAux_stable fineness hf k img hge]
      exact ih hge

/-- C3: for every grid and positive fineness the packing loop terminates and
emits at most `W*H` circles: the emitted list is no longer than the number of
nonzero pixels (each iteration erases at least the winning center), that count
is at most `W*H`, and the fuel-indexed iterates of the loop have stabilized at
the fuel `fractabubble` uses, so more fuel never changes the output. -/
theorem c3_termination_bound (img : Bitmap) (fineness : Int) (hf : 1 ≤ fineness) :
    (fractabubble img fineness).length ≤ filledCount img ∧
    filledCount img ≤ img.width.toNat * img.height.toNat ∧
    ∀ fuel : Nat, img.width.toNat * img.height.toNat + 1 ≤ fuel →
      packAux fineness fuel img = fractabubble img fineness := by
  refine ⟨packAux_length fineness hf _ img, filledCount_le img, ?_⟩
  intro fuel hfuel
  have hcount := filledCount_le img
  rw [fractabubble]
  rw [packAux_eq_of_ge fineness hf img fuel (by omega)]
  rw [packAux_eq_of_ge fineness hf img (img.width.toNat * img.height.toNat + 1) (by omega)]

/-- Witness for C3 at the all-empty 2×2 grid and fineness 1. -/
theorem c3_witness :
    (1 : Int) ≤ 1 ∧
    ((fractabubble zeroGrid 1).length ≤ filledCount zeroGrid ∧
     filledCount zeroGrid ≤ zeroGrid.width.toNat * zeroGrid.height.toNat ∧
     ∀ fuel : Nat, zeroGrid.width.toNat * zeroGrid.height.toNat + 1 ≤ fuel →
       packAux 1 fuel zeroGrid = fractabubble zeroGrid 1) :=
  ⟨le_refl 1, c3_termination_bound zeroGrid 1 (le_refl 1)⟩

/-- C4 counterexample: the claim says the Radius Oracle returns 0 at an empty
pixel, but `get_circle` returns `r - 1 = -1` there: on the all-empty 2×2 grid
the oracle at in-bounds pixel (0, 0) yields -1, not 0. -/
theorem c4_counterexample :
    get_circle zeroGrid 0 0 0 = -1 ∧ ((-1 : Int) ≠ 0) ∧
    0 ≤ (0 : Int) ∧ (0 : Int) < zeroGrid.width ∧ (0 : Int) < zeroGrid.height ∧
    zeroGrid.data 0 0 = 0 := by
  decide

/-- C4 amended: at every in-bounds empty pixel the oracle started at radius 0
returns -1 (a negative sentinel, which the scan's `r > greatest` test treats
as no circle); in particular, re-running the oracle at a just-packed circle's
center immediately after erasure returns -1. -/
theorem c4_amended (img : Bitmap) :
    (∀ x y : Int, 0 ≤ x → x < img.width → 0 ≤ y → y < img.height → img.data x y = 0 →
      get_circle img x y 0 = -1) ∧
    (∀ r x y : Int, find_biggest_circle img = (r, x, y) → 1 ≤ r →
      get_circle (erase img x y r) x y 0 = -1) := by
  constructor
  · intro x y hx0 hxW hy0 hyH h0
    exact get_circle_empty hx0 hxW hy0 hyH h0
  · intro r x y hfind hr
    obtain ⟨hx0, hxW, hy0, hyH, _⟩ := find_pos_center_filled hfind (by omega)
    have h1 : x < (erase img x y r).width := by rw [erase_width]; exact hxW
    have h2 : y < (erase img x y r).height := by rw [erase_height]; exact hyH
    exact get_circle_empty hx0 h1 hy0 h2 (erase_center hr)

/-- Witness for C4 amended: the empty-pixel branch on the all-empty grid and
the after-erasure branch on the full 3×3 grid, whose first packed circle is
(1, 1, 1). -/
theorem c4_witness :
    get_circle zeroGrid 0 0 0 = -1 ∧ get_circle (erase (fullGrid 3) 1 1 1) 1 1 0 = -1 :=
  ⟨(c4_amended zeroGrid).1 0 0 (by decide) (by decide) (by decide) (by decide) rfl,
   (c4_amended (fullGrid 3)).2 1 1 1 (by decide) (by decide)⟩

/-- C5: the erasure step zeroes exactly the cells at offset (i, j) from the
center with `i*i + j*j < r*r` (strict), and leaves every other cell, the
circumference included, unchanged. -/
theorem c5_erase_frame (img : Bitmap) (px py r : Int) (hr : 1 ≤ r) (a b : Int) :
    ((a - px) * (a - px) + (b - py) * (b - py) < r * r →
      (erase img px py r).data a b = 0) ∧
    (¬((a - px) * (a - px) + (b - py) * (b - py) < r * r) →
      (erase img px py r).data a b = img.data a b) := by
  constructor
  · intro hlt
    have h1 : -r ≤ a - px := by nlinarith [mul_self_nonneg (b - py), mul_self_nonneg (a - px + r)]
    have h2 : a - px < r := by nlinarith [mul_self_nonneg (b - py), mul_self_nonneg (a - px - r)]
    have h3 : -r ≤ b - py := by nlinarith [mul_self_nonneg (a - px), mul_self_nonneg (b - py + r)]
    have h4 : b - py < r := by nlinarith [mul_self_nonneg (a - px), mul_self_nonneg (b - py - r)]
    simp only [erase]
    rw [if_pos ⟨h1, h2, h3, h4, by linarith⟩]
  · intro hge
    have hnc : ¬(-r ≤ a - px ∧ a - px < r ∧ -r ≤ b - py ∧ b - py < r ∧
        (b - py) * (b - py) + (a - px) * (a - px) < r * r) := by
      intro hcond
      exact hge (by linarith [hcond.2.2.2.2])
    simp only [erase]
    rw [if_neg hnc]

/-- Witness for C5 on the full 3×3 grid, erasing the circle of radius 1 at
(1, 1), checked at the center cell and at a circumference cell. -/
theorem c5_witness :
    (((1 : Int) - 1) * (1 - 1) + ((1 : Int) - 1) * (1 - 1) < 1 * 1 →
      (erase (fullGrid 3) 1 1 1).data 1 1 = 0) ∧
    (¬(((1 : Int) - 1) * (1 - 1) + ((1 : Int) - 1) * (1 - 1) < 1 * 1) →
      (erase (fullGrid 3) 1 1 1).data 1 1 = (fullGrid 3).data 1 1) :=
  c5_erase_frame (fullGrid 3) 1 1 1 (le_refl 1) 1 1

set_option maxRecDepth 20000 in
/-- C1 counterexample: on the 5×5 grid that is filled everywhere except pixel
(3, 3), the packer emits the circle of radius 2 at (2, 2), yet pixel (3, 3)
lies within distance 2 of the center (offset (1, 1), 1+1 ≤ 4) and is empty at
the moment the circle is found (it is the initial grid): the disk is not fully
inscribed, because `is_circle_in_image` tests only midpoint-circle boundary
rings and the rings at radii 0, 1, 2 never visit offset (1, 1). -/
theorem c1_counterexample :
    fractabubble gapGrid 2 = [(2, 2, 2)] ∧
    ((3 : Int) - 2) * (3 - 2) + ((3 : Int) - 2) * (3 - 2) ≤ 2 * 2 ∧
    gapGrid.data 3 3 = 0 := by
  decide

/-- The validity that the packer actually guarantees for its output, circle by
circle against the grid state at the moment each circle was found: the
bounding square of the winning radius lies inside the canvas, and every
midpoint-circle boundary ring at radii 0..r passes the `is_circle_in_image`
test (every pixel those rings visit is nonzero). -/
def PackedRingValid : Bitmap → List (Int × Int × Int) → Prop
  | _, [] => True
  | img, c :: rest =>
      ((0 ≤ c.2.1 - c.1 ∧ c.2.1 + c.1 < img.width ∧
        0 ≤ c.2.2 - c.1 ∧ c.2.2 + c.1 < img.height) ∧
       ∀ s : Int, 0 ≤ s → s ≤ c.1 → is_circle_in_image img c.2.1 c.2.2 s = true) ∧
      PackedRingValid (erase img c.2.1 c.2.2 c.1) rest

lemma packAux_ring_valid (fineness : Int) (hf : 1 ≤ fineness) :
    ∀ (fuel : Nat) (img : Bitmap), PackedRingValid img (packAux fineness fuel img) := by
  intro fuel
  induction fuel with
  | zero => intro img; rw [packAux_zero]; trivial
  | succ n ih =>
    intro img
    rw [packAux_succ]
    by_cases hle : fineness ≤ (find_biggest_circle img).1
    · rw [if_pos hle]
      have hr : 0 < (find_biggest_circle img).1 := by omega
      obtain ⟨hbox, hring⟩ := find_box (find_eta img) hr
      exact ⟨⟨hbox, hring⟩, ih _⟩
    · rw [if_neg hle]
      trivial

/-- C1 amended: every circle the packer emits, evaluated against the grid
state at the moment it was found (before its erasure), has its bounding square
inside the canvas and passes the boundary-ring test at every radius 0..r; the
full-disk statement of the claim is refuted by `c1_counterexample`, since the
concentric midpoint rings do not cover the whole closed disk. -/
theorem c1_amended (img : Bitmap) (fineness : Int) (hf : 1 ≤ fineness) :
    PackedRingValid img (fractabubble img fineness) :=
  packAux_ring_valid fineness hf _ img

set_option maxRecDepth 20000 in
/-- Witness for C1 amended on the counterexample grid with fineness 2. -/
theorem c1_witness :
    (1 : Int) ≤ 2 ∧ PackedRingValid gapGrid (fractabubble gapGrid 2) :=
  ⟨by decide, c1_amended gapGrid 2 (by decide)⟩

lemma ringCheckAux_full (n : Nat) (cx cy : Int) :
    ∀ (fuel : Nat) (x y t1 : Int), ringCheckAux (fullGrid n) cx cy fuel x y t1 = true := by
  intro fuel
  induction fuel with
  | zero => intro x y t1; rfl
  | succ m ih =>
    intro x y t1
    simp only [ringCheckAux]
    by_cases hyx : y ≤ x
    · rw [if_pos hyx]
      have hz : ¬((fullGrid n).data (cx + x) (cy + y) = 0 ∨
          (fullGrid n).data (cx + x) (cy - y) = 0 ∨
          (fullGrid n).data (cx - x) (cy + y) = 0 ∨
          (fullGrid n).data (cx - x) (cy - y) = 0 ∨
          (fullGrid n).data (cx + y) (cy + x) = 0 ∨
          (fullGrid n).data (cx - y) (cy + x) = 0 ∨
          (fullGrid n).data (cx + y) (cy - x) = 0 ∨
          (fullGrid n).data (cx - y) (cy - x) = 0) := by
        simp [fullGrid]
      rw [if_neg hz]
      by_cases ht : 0 ≤ t1 + (y + 1) - x
      · rw [if_pos ht]; exact ih _ _ _
      · rw [if_neg ht]; exact ih _ _ _
    · rw [if_neg hyx]

lemma getCircleAux_full (n : Nat) (x y B : Int)
    (hB : B = min (min (x + 1) ((n : Int) - x)) (min (y + 1) ((n : Int) - y))) :
    ∀ (fuel : Nat) (r : Int), r ≤ B → (B - r).toNat < fuel →
      getCircleAux (fullGrid n) x y fuel r = B - 1 := by
  intro fuel
  induction fuel with
  | zero => intro r h1 h2; omega
  | succ m ih =>
    intro r hrB hfuel
    rw [getCircleAux_succ]
    have hw : (fullGrid n).width = (n : Int) := rfl
    have hh : (fullGrid n).height = (n : Int) := rfl
    by_cases hbox : x - r < 0 ∨ (fullGrid n).width ≤ x + r ∨ y - r < 0 ∨
        (fullGrid n).height ≤ y + r
    · rw [if_pos hbox]
      rw [hw, hh] at hbox
      omega
    · rw [if_neg hbox]
      rw [hw, hh] at hbox
      rw [if_pos (show is_circle_in_image (fullGrid n) x y r = true from
        ringCheckAux_full n x y _ _ _ _)]
      exact ih (r + 1) (by omega) (by omega)

lemma get_circle_full (n : Nat) (x y : Int) (hx0 : 0 ≤ x) (hxn : x < (n : Int))
    (hy0 : 0 ≤ y) (hyn : y < (n : Int)) :
    get_circle (fullGrid n) x y 0 =
      min (min (x + 1) ((n : Int) - x)) (min (y + 1) ((n : Int) - y)) - 1 := by
  rw [get_circle]
  have hw : (fullGrid n).width = (n : Int) := rfl
  have hh : (fullGrid n).height = (n : Int) := rfl
  rw [hw, hh]
  exact getCircleAux_full n x y _ rfl _ 0 (by omega) (by omega)

lemma find_full (n : Nat) (hm : 1 ≤ (((n - 1) / 2 : Nat) : Int)) :
    find_biggest_circle (fullGrid n) =
      ((((n - 1) / 2 : Nat) : Int), (((n - 1) / 2 : Nat) : Int),
        (((n - 1) / 2 : Nat) : Int)) := by
  have hw : (fullGrid n).width = (n : Int) := rfl
  have hh : (fullGrid n).height = (n : Int) := rfl
  have hn : 3 ≤ n := by omega
  have hval : ∀ p : Int × Int, p ∈ scanPoints (fullGrid n) →
      circleValue (fullGrid n) p =
        min (min (p.1 + 1) ((n : Int) - p.1)) (min (p.2 + 1) ((n : Int) - p.2)) - 1 := by
    intro p hp
    obtain ⟨h1, h2, h3, h4⟩ := mem_scanPoints.mp hp
    rw [hw] at h2
    rw [hh] at h4
    exact get_circle_full n p.1 p.2 h1 h2 h3 h4
  have hmem : (((((n - 1) / 2 : Nat) : Int), (((n - 1) / 2 : Nat) : Int)) : Int × Int) ∈
      scanPoints (fullGrid n) := by
    rw [mem_scanPoints, hw, hh]
    refine ⟨by omega, by omega, by omega, by omega⟩
  have hvalM : circleValue (fullGrid n) ((((n - 1) / 2 : Nat) : Int),
      (((n - 1) / 2 : Nat) : Int)) = (((n - 1) / 2 : Nat) : Int) := by
    rw [hval _ hmem]
    omega
  have hub : ∀ p : Int × Int, p ∈ scanPoints (fullGrid n) →
      circleValue (fullGrid n) p ≤ (((n - 1) / 2 : Nat) : Int) := by
    intro p hp
    rw [hval p hp]
    omega
  rw [find_biggest_circle]
  rcases foldl_bestStep_cases (circleValue (fullGrid n)) (scanPoints (fullGrid n)) (0, 0, 0)
    with ⟨heq, hall⟩ | ⟨L₁, p, L₂, hsplit, hres, hpos, h₁, h₂⟩
  · exfalso
    have := hall _ hmem
    rw [hvalM] at this
    omega
  · have hpmemscan : p ∈ scanPoints (fullGrid n) := by
      rw [hsplit]
      exact List.mem_append_right _ (List.mem_cons_self _ _)
    have hMle : (((n - 1) / 2 : Nat) : Int) ≤ circleValue (fullGrid n) p := by
      have hMsplit := hmem
      rw [hsplit] at hMsplit
      rcases List.mem_append.mp hMsplit with hmem1 | hmem2
      · have := h₁ _ hmem1
        rw [hvalM] at this
        exact le_of_lt this
      · rcases List.mem_cons.mp hmem2 with heqp | hmem3
        · rw [← heqp, hvalM]
        · have := h₂ _ hmem3
          rw [hvalM] at this
          exact this
    have hvp : circleValue (fullGrid n) p = (((n - 1) / 2 : Nat) : Int) :=
      le_antisymm (hub p hpmemscan) hMle
    have hpeq : p = ((((n - 1) / 2 : Nat) : Int), (((n - 1) / 2 : Nat) : Int)) := by
      have hMsplit := hmem
      rw [hsplit] at hMsplit
      rcases List.mem_append.mp hMsplit with hmem1 | hmem2
      · exfalso
        have := h₁ _ hmem1
        rw [hvalM, hvp] at this
        omega
      · rcases List.mem_cons.mp hmem2 with heqp | hmem3
        · rw [heqp]
        · exfalso
          have hpair := List.pairwise_append.mp (hsplit ▸ scanPoints_pairwise (fullGrid n))
          have hlex := (List.pairwise_cons.mp hpair.2.1).1 _ hmem3
          have hvform := hval p hpmemscan
          obtain ⟨hp1, hp2, hp3, hp4⟩ := mem_scanPoints.mp hpmemscan
          rcases hlex with hlt | ⟨heq1, hlt2⟩
          · rw [hvform] at hvp
            omega
          · rw [hvform] at hvp
            omega
    rw [hres, hvp, hpeq]

set_option maxRecDepth 40000 in
/-- C6 counterexample: the claim says an entirely filled 10×10 grid packs a
first circle of radius `floor(10/2) = 5` at the grid center; the code's first
circle is `(4, 4)` with radius 4, because the oracle at (x, y) is bounded by
`min(x, y, 9-x, 9-y)` (the bounding-square check fails one step earlier than
the claim assumes) and the scan keeps the first strict maximum. -/
theorem c6_counterexample :
    (fractabubble (fullGrid 10) 3).head? = some (4, 4, 4) ∧ (4 : Int) ≠ 10 / 2 := by
  constructor
  · decide
  · decide

/-- C6 amended: an entirely filled N×N grid (no radius cap exists in the code)
packs a first circle of radius `(N-1)/2` centered at `((N-1)/2, (N-1)/2)`
whenever the fineness allows it; for N = 10 the deterministic first radius is
4, not `floor(10/2) = 5`. -/
theorem c6_amended (n : Nat) (fineness : Int) (hf1 : 1 ≤ fineness)
    (hfm : fineness ≤ (((n - 1) / 2 : Nat) : Int)) :
    (fractabubble (fullGrid n) fineness).head? =
      some ((((n - 1) / 2 : Nat) : Int), (((n - 1) / 2 : Nat) : Int),
        (((n - 1) / 2 : Nat) : Int)) := by
  have hm : 1 ≤ (((n - 1) / 2 : Nat) : Int) := le_trans hf1 hfm
  have hfind := find_full n hm
  rw [fractabubble]
  have hfuel : (fullGrid n).width.toNat * (fullGrid n).height.toNat + 1 = n * n + 1 := by
    have hw : (fullGrid n).width = (n : Int) := rfl
    have hh : (fullGrid n).height = (n : Int) := rfl
    rw [hw, hh]
    simp
  rw [hfuel, packAux_succ, hfind]
  rw [if_pos hfm]
  rw [List.head?_cons]

/-- Witness for C6 amended at N = 10, fineness 3. -/
theorem c6_witness :
    (1 : Int) ≤ 3 ∧ (3 : Int) ≤ (((10 - 1) / 2 : Nat) : Int) ∧
    (fractabubble (fullGrid 10) 3).head? =
      some ((((10 - 1) / 2 : Nat) : Int), (((10 - 1) / 2 : Nat) : Int),
        (((10 - 1) / 2 : Nat) : Int)) :=
  ⟨by decide, by decide, c6_amended 10 3 (by decide) (by decide)⟩

lemma findCapped_fst_nonneg (img : Bitmap) (bound : Int) :
    0 ≤ (findBiggestCapped img bound).1 :=
  bestStep_fst_le (radiusAtCapped img bound) (scanPoints img) (0, 0, 0)

lemma findCapped_le (img : Bitmap) (bound : Int) (hb : 0 ≤ bound) :
    (findBiggestCapped img bound).1 ≤ bound :=
  foldl_bestStep_le _ _ _ bound (fun _ _ => min_le_left _ _) hb

lemma packCappedAux_mem_le (fineness : Int) :
    ∀ (fuel : Nat) (bound : Int) (img : Bitmap), 0 ≤ bound →
      ∀ c ∈ packCappedAux fineness fuel bound img, c.1 ≤ bound := by
  intro fuel
  induction fuel with
  | zero =>
    intro bound img hb c hc
    rw [packCappedAux_zero] at hc
    exact absurd hc (List.not_mem_nil c)
  | succ n ih =>
    intro bound img hb c hc
    rw [packCappedAux_succ] at hc
    by_cases hle : fineness ≤ (findBiggestCapped img bound).1
    · rw [if_pos hle] at hc
      have hfle : (findBiggestCapped img bound).1 ≤ bound := findCapped_le img bound hb
      rcases List.mem_cons.mp hc with rfl | htail
      · exact hfle
      · exact le_trans (ih _ _ (findCapped_fst_nonneg img bound) c htail) hfle
    · rw [if_neg hle] at hc
      exact absurd hc (List.not_mem_nil c)

set_option maxRecDepth 40000 in
lemma findCapped_disk_fst : (findBiggestCapped diskGrid 10).1 = 10 := by
  rw [findBiggestCapped]
  apply le_antisymm
  · exact foldl_bestStep_le _ _ _ 10 (fun p _ => min_le_left _ _) (by norm_num)
  · have hmem : ((30 : Int), (30 : Int)) ∈ scanPoints diskGrid := by
      rw [mem_scanPoints]
      exact ⟨by norm_num, by decide, by norm_num, by decide⟩
    have h30 : (10 : Int) ≤ radiusAtCapped diskGrid 10 (30, 30) := by
      rw [radiusAtCapped]
      have hg : (10 : Int) ≤ circleValue diskGrid (30, 30) := by decide
      omega
    have hfold := le_foldl_bestStep_of_mem (radiusAtCapped diskGrid 10) (scanPoints diskGrid)
      (0, 0, 0) _ hmem
    omega

/-- C7 (spec-modelled cap): with a nonnegative `maxRadius` cap in effect the
capped packer never reports a circle whose radius exceeds the cap, and on the
60×60 grid holding the filled disk of radius 20 at (30, 30), packing with
`maxRadius = 10` and fineness 3 first reports a circle of radius 10, not 20. -/
theorem c7_maxradius :
    (∀ (img : Bitmap) (fineness cap : Int), 0 ≤ cap →
      ∀ c ∈ packCapped img fineness cap, c.1 ≤ cap) ∧
    Option.map (fun c : Int × Int × Int => c.1) (packCapped diskGrid 3 10).head? = some 10 := by
  constructor
  · intro img fineness cap hcap c hc
    exact packCappedAux_mem_le fineness _ cap img hcap c hc
  · rw [packCapped]
    have hfuel : diskGrid.width.toNat * diskGrid.height.toNat + 1 = 3600 + 1 := by decide
    rw [hfuel, packCappedAux_succ]
    rw [if_pos (show (3 : Int) ≤ (findBiggestCapped diskGrid 10).1 by
      rw [findCapped_disk_fst]; norm_num)]
    rw [List.head?_cons]
    simp [findCapped_disk_fst]

/-- Witness for C7 on the full 3×3 grid with cap 5 and fineness 1: the packed
circle (1, 1, 1) respects the cap. -/
theorem c7_witness :
    0 ≤ (5 : Int) ∧ (((1 : Int), (1 : Int), (1 : Int)) ∈ packCapped (fullGrid 3) 1 5) ∧
    (1 : Int) ≤ 5 :=
  ⟨by decide, by decide, c7_maxradius.1 (fullGrid 3) 1 5 (by decide) (1, 1, 1) (by decide)⟩

lemma circleValue_nonpos_of_zero {img : Bitmap} (hz : ∀ a b : Int, img.data a b = 0)
    (p : Int × Int) : circleValue img p ≤ 0 := by
  rw [circleValue, get_circle]
  have hfuel : (img.width + img.height).toNat + 2 = ((img.width + img.height).toNat + 1) + 1 :=
    rfl
  rw [hfuel, getCircleAux_succ]
  by_cases hbox : p.1 - 0 < 0 ∨ img.width ≤ p.1 + 0 ∨ p.2 - 0 < 0 ∨ img.height ≤ p.2 + 0
  · rw [if_pos hbox]
    norm_num
  · rw [if_neg hbox]
    have hring : ¬(is_circle_in_image img p.1 p.2 0 = true) := fun hc =>
      is_circle_zero_center hc (hz p.1 p.2)
    rw [if_neg hring]
    norm_num

/-- C8: a grid whose cells are all zero packs to the empty circle sequence for
every positive fineness, with or without a `maxRadius` cap; this is the normal
result of the loop's stop test, not an error path. -/
theorem c8_empty_grid (img : Bitmap) (fineness : Int)
    (hz : ∀ a b : Int, img.data a b = 0) (hf : 1 ≤ fineness) :
    fractabubble img fineness = [] ∧ ∀ cap : Int, packCapped img fineness cap = [] := by
  have hfind : (find_biggest_circle img).1 ≤ 0 := by
    rw [find_biggest_circle]
    exact foldl_bestStep_le _ _ _ 0 (fun p _ => circleValue_nonpos_of_zero hz p) le_rfl
  constructor
  · rw [fractabubble, packAux_succ, if_neg (by omega)]
  · intro cap
    have hfindc : (findBiggestCapped img cap).1 ≤ 0 := by
      rw [findBiggestCapped]
      exact foldl_bestStep_le _ _ _ 0
        (fun p _ => le_trans (min_le_right _ _) (circleValue_nonpos_of_zero hz p)) le_rfl
    rw [packCapped, packCappedAux_succ, if_neg (by omega)]

/-- Witness for C8 at the all-empty 2×2 grid with fineness 1. -/
theorem c8_witness :
    fractabubble zeroGrid 1 = [] ∧ ∀ cap : Int, packCapped zeroGrid 1 cap = [] :=
  c8_empty_grid zeroGrid 1 (fun _ _ => rfl) (le_refl 1)

lemma packAux_box (fineness : Int) (hf : 1 ≤ fineness) :
    ∀ (fuel : Nat) (img : Bitmap), ∀ c ∈ packAux fineness fuel img,
      0 ≤ c.2.1 - c.1 ∧ c.2.1 + c.1 < img.width ∧
      0 ≤ c.2.2 - c.1 ∧ c.2.2 + c.1 < img.height := by
  intro fuel
  induction fuel with
  | zero =>
    intro img c hc
    rw [packAux_zero] at hc
    exact absurd hc (List.not_mem_nil c)
  | succ n ih =>
    intro img c hc
    rw [packAux_succ] at hc
    by_cases hle : fineness ≤ (find_biggest_circle img).1
    · rw [if_pos hle] at hc
      rcases List.mem_cons.mp hc with rfl | htail
      · have hr : 0 < (find_biggest_circle img).1 := by omega
        exact (find_box (find_eta img) hr).1
      · have htl := ih _ c htail
        rw [erase_width, erase_height] at htl
        exact htl
    · rw [if_neg hle] at hc
      exact absurd hc (List.not_mem_nil c)

/-- C9: with positive fineness, every circle `(r, x, y)` the packer emits has
its bounding square inside the canvas (`x - r ≥ 0`, `x + r < W`, `y - r ≥ 0`,
`y + r < H`), so every cell the erasure loop touches (offsets in `[-r, r)`)
lies inside the `W×H` grid. -/
theorem c9_bounds (img : Bitmap) (fineness : Int) (hf : 1 ≤ fineness) :
    ∀ c ∈ fractabubble img fineness,
      (0 ≤ c.2.1 - c.1 ∧ c.2.1 + c.1 < img.width ∧
       0 ≤ c.2.2 - c.1 ∧ c.2.2 + c.1 < img.height) ∧
      ∀ i j : Int, -c.1 ≤ i → i < c.1 → -c.1 ≤ j → j < c.1 →
        0 ≤ c.2.1 + i ∧ c.2.1 + i < img.width ∧
        0 ≤ c.2.2 + j ∧ c.2.2 + j < img.height := by
  intro c hc
  have hbox := packAux_box fineness hf _ img c hc
  refine ⟨hbox, ?_⟩
  intro i j h1 h2 h3 h4
  omega

/-- Witness for C9 on the full 3×3 grid with fineness 1, whose only packed
circle is (1, 1, 1). -/
theorem c9_witness :
    (1 : Int) ≤ 1 ∧
    ((0 ≤ ((1 : Int), (1 : Int), (1 : Int)).2.1 - ((1 : Int), (1 : Int), (1 : Int)).1 ∧
      ((1 : Int), (1 : Int), (1 : Int)).2.1 + ((1 : Int), (1 : Int), (1 : Int)).1 <
        (fullGrid 3).width ∧
      0 ≤ ((1 : Int), (1 : Int), (1 : Int)).2.2 - ((1 : Int), (1 : Int), (1 : Int)).1 ∧
      ((1 : Int), (1 : Int), (1 : Int)).2.2 + ((1 : Int), (1 : Int), (1 : Int)).1 <
        (fullGrid 3).height) ∧
     ∀ i j : Int, -((1 : Int), (1 : Int), (1 : Int)).1 ≤ i →
       i < ((1 : Int), (1 : Int), (1 : Int)).1 →
       -((1 : Int), (1 : Int), (1 : Int)).1 ≤ j → j < ((1 : Int), (1 : Int), (1 : Int)).1 →
       0 ≤ ((1 : Int), (1 : Int), (1 : Int)).2.1 + i ∧
       ((1 : Int), (1 : Int), (1 : Int)).2.1 + i < (fullGrid 3).width ∧
       0 ≤ ((1 : Int), (1 : Int), (1 : Int)).2.2 + j ∧
       ((1 : Int), (1 : Int), (1 : Int)).2.2 + j < (fullGrid 3).height) :=
  ⟨le_refl 1, c9_bounds (fullGrid 3) 1 (le_refl 1) (1, 1, 1) (by decide)⟩

/-- C10: the scan is deterministic in its tie-breaking: when the reported
radius is positive, the reported center attains the oracle value `r`, every
in-bounds pixel's oracle value is at most `r`, and any other in-bounds pixel
attaining `r` is lexicographically after the reported one (larger x, or equal
x and larger-or-equal y) — the scan goes x ascending then y ascending and
replaces the incumbent only on a strictly greater radius, so the whole packing
output is a function of the grid and the fineness alone. -/
theorem c10_tiebreak (img : Bitmap) (r x y : Int)
    (hfind : find_biggest_circle img = (r, x, y)) (hr : 0 < r) :
    (0 ≤ x ∧ x < img.width ∧ 0 ≤ y ∧ y < img.height) ∧
    get_circle img x y 0 = r ∧
    (∀ a b : Int, 0 ≤ a → a < img.width → 0 ≤ b → b < img.height →
      get_circle img a b 0 ≤ r) ∧
    (∀ a b : Int, 0 ≤ a → a < img.width → 0 ≤ b → b < img.height →
      get_circle img a b 0 = r → x < a ∨ (x = a ∧ y ≤ b)) :=
  find_pos_spec hfind hr

/-- Witness for C10 on the full 3×3 grid, whose scan reports (1, 1, 1). -/
theorem c10_witness :
    (0 ≤ (1 : Int) ∧ (1 : Int) < (fullGrid 3).width ∧ 0 ≤ (1 : Int) ∧
      (1 : Int) < (fullGrid 3).height) ∧
    get_circle (fullGrid 3) 1 1 0 = 1 ∧
    (∀ a b : Int, 0 ≤ a → a < (fullGrid 3).width → 0 ≤ b → b < (fullGrid 3).height →
      get_circle (fullGrid 3) a b 0 ≤ 1) ∧
    (∀ a b : Int, 0 ≤ a → a < (fullGrid 3).width → 0 ≤ b → b < (fullGrid 3).height →
      get_circle (fullGrid 3) a b 0 = 1 → 1 < a ∨ (1 = a ∧ 1 ≤ b)) :=
  c10_tiebreak (fullGrid 3) 1 1 1 (by decide) (by decide)
